import Mathlib

/-!
Shallow embedding of the physical frame allocator of the kernel
(`src/allocator/physical.rs`), together with the supporting one-time
initialization gate (`src/common/sync.rs`) and the boot memory-map types
(`src/arch/boot/mod.rs`).

Modelling conventions:
* `usize` values are `Nat`s; every operation that can wrap in Rust is
  written with an explicit `% 2 ^ 64`.  Machine word width is 64.
* Atomic operations are given their single-threaded semantics (a
  `compare_exchange` against the freshest observed value always succeeds
  on the first attempt, so the bounded two-attempt retry loop of
  `allocate_many` collapses to one attempt per window).
* Release-build semantics: `debug_assert!`/`debug_assert_arg!` checks are
  skipped, arithmetic wraps, and a shift amount `>= 64` is masked by 63
  (Rust's release behaviour for `<<`).  `assert!`/`assert_arg!`/`expect`
  run in every build and are modelled as error/`none` results.
-/

/-- `FRAME_SIZE = paging::PAGE_SIZE = 4096`. -/
def FRAME_SIZE : Nat := 4096

/-- `MAX_MEMORY_REGION_COUNT`. -/
def MAX_MEMORY_REGION_COUNT : Nat := 4096

/-- `usize::BITS` on the reference 64-bit target. -/
def usizeBits : Nat := 64

/-- `usize::MAX`. -/
def usizeMax : Nat := 2 ^ 64 - 1

namespace FrameBitmapChunk

/-- `FrameBitmapChunk::BITS = usize::BITS`. -/
def BITS : Nat := 64

/-- `FrameBitmapChunk::MEMORY_SIZE = BITS * FRAME_SIZE`: bytes covered by one chunk. -/
def MEMORY_SIZE : Nat := BITS * FRAME_SIZE

/-- The scan loop of `allocate_single`: `for bit in 0..usize::BITS`, atomic
bit-test-and-set; the first bit whose prior value was 0 is returned together
with the updated word.  A bit-test-and-set on an already-set bit leaves the
word unchanged, so the word only changes at the successful return. -/
def allocateSingleLoop (w : Nat) : List Nat → Option (Nat × Nat)
  | [] => none
  | bit :: rest =>
    if w.testBit bit then allocateSingleLoop w rest
    else some (bit, w ||| (1 <<< bit))

/-- `FrameBitmapChunk::allocate_single`: fast-reject when the word is all
ones, otherwise scan bits `0..64`.  Returns `(offset, new word)`. -/
def allocateSingle (w : Nat) : Option (Nat × Nat) :=
  if w ≠ usizeMax then allocateSingleLoop w (List.range 64)
  else none

/-- The window loop of `allocate_many`: for each `shift`, if all bits of
`mask << shift` are clear in the word, the (single-threaded) compare-exchange
installs them and the loop returns `(shift, new word)`.  `!previous` on a
64-bit word is `usizeMax ^^^ previous`; the value shift truncates at 64 bits. -/
def allocateManyLoop (w mask : Nat) : List Nat → Option (Nat × Nat)
  | [] => none
  | shift :: rest =>
    let shiftedMask := (mask <<< shift) % 2 ^ 64
    if (usizeMax ^^^ w) &&& shiftedMask = shiftedMask then
      some (shift, w ||| shiftedMask)
    else allocateManyLoop w mask rest

/-- `FrameBitmapChunk::allocate_many(count)`: `mask = (1usize << count)
.wrapping_sub(1)` (shift amount masked by 63 in release builds, so
`count = 64` yields mask 0), windows `0..(usize::BITS - count)`.
The source's `debug_assert_arg!(count < usize::BITS)` is debug-only. -/
def allocateMany (w count : Nat) : Option (Nat × Nat) :=
  let mask := (1 <<< (count % 64)) - 1
  allocateManyLoop w mask (List.range (usizeBits - count))

/-- `FrameBitmapChunk::free(offset, count)`: `assert!(count <= usize::BITS)`
(modelled as `none` on failure), then `fetch_xor` of
`(1usize << count).wrapping_sub(1) << offset` (value truncated at 64 bits).
The double-free `debug_assert!` is debug-only and does not change the word. -/
def free (w off count : Nat) : Option Nat :=
  if count ≤ usizeBits then
    some (w ^^^ ((((1 <<< (count % 64)) - 1) <<< off) % 2 ^ 64))
  else none

end FrameBitmapChunk

/-- Panics that `MemoryRegion::new` can reach through `assert_arg!`,
`assert!`, `assert_eq!`, or the `usize` underflow at
`chunk_array_ptr.add(chunks_size - 1)` (an out-of-bounds access in any
build: overflow panic in debug, a wild pointer in release — modelled as the
distinguished error it is). -/
inductive ConstructionError where
  | misalignedBase
  | misalignedSize
  | sizeTooSmall
  | chunksSizeAssert
  | endReservedAssert
  | lastChunkUnderflow
  | overlapAssert
deriving DecidableEq, Repr

/-- `MemoryRegion { base, frames_used: AtomicUsize, chunks: &[FrameBitmapChunk] }`.
Each chunk is its word value. -/
structure MemoryRegion where
  base : Nat
  framesUsed : Nat
  chunks : List Nat
deriving DecidableEq, Repr

/-- Fallback for list indexing; the source's slice indexing is only modelled
through it at indices proved (or checked) in bounds, or as a panic. -/
def defaultRegion : MemoryRegion := { base := 0, framesUsed := 0, chunks := [] }

namespace MemoryRegion

/-- `MIN_FRAMES_REQUIRED`. -/
def MIN_FRAMES_REQUIRED : Nat := 4

/-- `ALIGNMENT = FRAME_SIZE * FrameBitmapChunk::BITS`: bytes of memory
covered per chunk. -/
def ALIGNMENT : Nat := FRAME_SIZE * FrameBitmapChunk.BITS

/-- `chunk_array_size(size) = (size / ALIGNMENT) * size_of::<FrameBitmapChunk>()`:
byte size of the chunk array. -/
def chunkArraySize (size : Nat) : Nat :=
  (size / ALIGNMENT) * 8

/-- Rust `usize::next_multiple_of`. -/
def nextMultipleOf (a m : Nat) : Nat := ((a + m - 1) / m) * m

/-- `end_reserved_bits = !((1usize << (usize::BITS - end_reserved_frames))
.wrapping_sub(1))`: in release builds the shift amount is masked by 63, so
`end_reserved_frames = 0` gives `!((1 << 0) - 1) = usize::MAX` (in debug
builds that case panics on shift overflow). -/
def endReservedBitsOf (endReservedFrames : Nat) : Nat :=
  usizeMax ^^^ ((1 <<< ((usizeBits - endReservedFrames) % 64)) - 1)

/-- `MemoryRegion::new(base, size, identity_map_token)`, release semantics.

The construction writes `FrameBitmapChunk::new(start_reserved_frames_left)`
for `i in 0..chunks_size` — i.e. the running *count* of reserved frames left
(a saturating subtraction, which `Nat` subtraction is) is stored as the word
value, and the loop bound and the final slice length are the byte size
`chunks_size`, not the chunk count.  Both are modelled exactly as written.
The trailing `assert!(chunk_array_ptr.is_aligned())` always holds for a
`FRAME_SIZE`-aligned base and is omitted. -/
def new (base size : Nat) : Except ConstructionError MemoryRegion :=
  if base % FRAME_SIZE ≠ 0 then .error .misalignedBase
  else if size % FRAME_SIZE ≠ 0 then .error .misalignedSize
  else if ¬ size > FRAME_SIZE then .error .sizeTooSmall
  else
    let regionEnd := nextMultipleOf (base + size) ALIGNMENT
    let chunksSize := chunkArraySize size
    let chunksSizeFrames := (chunksSize + FRAME_SIZE - 1) / FRAME_SIZE
    if ¬ chunksSize < size then .error .chunksSizeAssert
    else
      let endReservedFrames := (regionEnd - (base + size)) / FRAME_SIZE
      if ¬ endReservedFrames < FrameBitmapChunk.BITS then .error .endReservedAssert
      else
        let chunks0 := (List.range chunksSize).map fun i => chunksSizeFrames - i * 64
        if chunksSize = 0 then .error .lastChunkUnderflow
        else
          let endReservedBits := endReservedBitsOf endReservedFrames
          let lastVal := chunks0.getD (chunksSize - 1) 0
          if lastVal &&& endReservedBits ≠ 0 then .error .overlapAssert
          else
            .ok { base := base, framesUsed := 0,
                  chunks := chunks0.set (chunksSize - 1) (lastVal ||| endReservedBits) }

/-- `frame_count = chunks.len() * FrameBitmapChunk::BITS`. -/
def frameCount (r : MemoryRegion) : Nat :=
  r.chunks.length * FrameBitmapChunk.BITS

/-- `frames_available = frame_count - frames_used` (usize subtraction;
saturation matches `Nat` subtraction for the comparison made with it). -/
def framesAvailable (r : MemoryRegion) : Nat :=
  r.frameCount - r.framesUsed

/-- `len()`: region length in bytes as the source computes it. -/
def lenBytes (r : MemoryRegion) : Nat :=
  r.frameCount * FRAME_SIZE

/-- `end()`. -/
def endAddr (r : MemoryRegion) : Nat :=
  r.base + r.lenBytes

/-- `check_if_owned(address) = address >= base && address < end()`. -/
def checkIfOwned (r : MemoryRegion) (address : Nat) : Bool :=
  decide (r.base ≤ address ∧ address < r.endAddr)

/-- The `chunks.iter().enumerate()` scan of `MemoryRegion::allocate`: try the
per-chunk allocation on each chunk in index order; on the first success
return the chunk index, in-chunk offset, and the updated chunk list. -/
def scanChunks (f : Nat → Option (Nat × Nat)) : List Nat → Nat → Option (Nat × Nat × List Nat)
  | [], _ => none
  | w :: rest, ix =>
    match f w with
    | some (offset, w') => some (ix, offset, w' :: rest)
    | none =>
      match scanChunks f rest (ix + 1) with
      | some (jx, offset, rest') => some (jx, offset, w :: rest')
      | none => none

/-- `MemoryRegion::allocate(frame_count)`.  Note the source computes the
returned address as `chunk_ix * MEMORY_SIZE + offset * FRAME_SIZE` without
adding `self.base`; this is modelled exactly as written. -/
def allocate (r : MemoryRegion) (frameCnt : Nat) : Option Nat × MemoryRegion :=
  if frameCnt > usizeBits then
    (none, r)
  else if r.framesAvailable < MIN_FRAMES_REQUIRED then
    (none, r)
  else if frameCnt = 1 then
    match scanChunks FrameBitmapChunk.allocateSingle r.chunks 0 with
    | some (chunkIx, offset, chunks') =>
      (some (chunkIx * FrameBitmapChunk.MEMORY_SIZE + offset * FRAME_SIZE),
       { base := r.base, framesUsed := r.framesUsed + 1, chunks := chunks' })
    | none => (none, r)
  else
    match scanChunks (fun w => FrameBitmapChunk.allocateMany w frameCnt) r.chunks 0 with
    | some (chunkIx, offset, chunks') =>
      (some (chunkIx * FrameBitmapChunk.MEMORY_SIZE + offset * FRAME_SIZE),
       { base := r.base, framesUsed := r.framesUsed + frameCnt, chunks := chunks' })
    | none => (none, r)

/-- `MemoryRegion::chunk_index`. -/
def chunkIndexOf (regionBase address : Nat) : Nat :=
  (address - regionBase) / (FrameBitmapChunk.BITS * FRAME_SIZE)

/-- `MemoryRegion::free(base, frame_count)` (release: the two
`debug_assert_arg!`s are skipped).  `address - self.base` is a `usize`
subtraction: for `address < self.base` it wraps to a huge value whose
chunk index is out of bounds, and slice indexing then panics in every
build — modelled as the `none` (panic) result, as is an out-of-bounds
chunk index generally.  The in-chunk offset is computed from the absolute
address, exactly as in the source.  `frames_used.fetch_sub` wraps. -/
def free (r : MemoryRegion) (address frameCnt : Nat) : Option MemoryRegion :=
  if address < r.base then none
  else
    let chunkIx := chunkIndexOf r.base address
    if chunkIx < r.chunks.length then
      let offset := (address / FRAME_SIZE) % FrameBitmapChunk.BITS
      match FrameBitmapChunk.free (r.chunks.getD chunkIx 0) offset frameCnt with
      | some w' =>
        some { base := r.base,
               framesUsed := (r.framesUsed + (2 ^ 64 - frameCnt % 2 ^ 64)) % 2 ^ 64,
               chunks := r.chunks.set chunkIx w' }
      | none => none
    else none

end MemoryRegion

/-- `FrameAllocator { regions: ArrayVec<MemoryRegion, MAX_MEMORY_REGION_COUNT>,
last_allocation_region: AtomicUsize }`. -/
structure FrameAllocator where
  regions : List MemoryRegion
  lastAllocationRegion : Nat
deriving DecidableEq, Repr

namespace FrameAllocator

/-- `FrameAllocator::empty()`. -/
def empty : FrameAllocator := { regions := [], lastAllocationRegion := 0 }

/-- The `for i in 0..region_count` loop of `FrameAllocator::allocate`:
probe region `(start_region_id + i) % region_count`, returning the first
success; `remaining` counts the iterations left (`region_count` initially).
A failed `MemoryRegion::allocate` leaves the region unchanged. -/
def allocLoop (frameCnt startId n : Nat) (regions : List MemoryRegion) :
    Nat → Nat → Option (Nat × List MemoryRegion)
  | _, 0 => none
  | i, remaining + 1 =>
    let ix := (startId + i) % n
    match (regions.getD ix defaultRegion).allocate frameCnt with
    | (some address, r') => some (address, regions.set ix r')
    | (none, _) => allocLoop frameCnt startId n regions (i + 1) remaining

/-- `FrameAllocator::allocate(frame_count)`: `fetch_add` on the cursor
(wrapping), then the rotating scan.  With no regions the loop body never
runs (`0..0`), so the modulo by zero in the source is never evaluated. -/
def allocate (a : FrameAllocator) (frameCnt : Nat) : Option Nat × FrameAllocator :=
  let n := a.regions.length
  let startId := a.lastAllocationRegion
  let cursor' := (startId + 1) % 2 ^ 64
  match allocLoop frameCnt startId n a.regions 0 n with
  | some (address, regions') =>
    (some address, { regions := regions', lastAllocationRegion := cursor' })
  | none => (none, { regions := a.regions, lastAllocationRegion := cursor' })

/-- The comparator closure of `FrameAllocator::free`. -/
def cmpRegion (r : MemoryRegion) (address : Nat) : Ordering :=
  if r.checkIfOwned address then .eq
  else if r.base < address then .lt
  else .gt

/-- `slice::binary_search_by` over `[left, right)`:
`mid = left + size / 2` with `size = right - left` (written out at each of
its three uses); `Less` moves `left` past `mid`, `Greater` moves `right` to
`mid`, `Equal` returns the index.  `none` is the `Err` result. -/
def binarySearchLoop (regions : List MemoryRegion) (address : Nat) :
    Nat → Nat → Option Nat
  | left, right =>
    if _h : left < right then
      match cmpRegion (regions.getD (left + (right - left) / 2) defaultRegion) address with
      | .lt => binarySearchLoop regions address (left + (right - left) / 2 + 1) right
      | .gt => binarySearchLoop regions address left (left + (right - left) / 2)
      | .eq => some (left + (right - left) / 2)
    else none
  termination_by left right => right - left
  decreasing_by
  · omega
  · omega

/-- `FrameAllocator::free(address, frame_count)`: binary search with the
ownership comparator; `.expect(...)` on the `Err` case is the
unowned-address panic (`none`). -/
def free (a : FrameAllocator) (address frameCnt : Nat) : Option FrameAllocator :=
  match binarySearchLoop a.regions address 0 a.regions.length with
  | none => none
  | some ix =>
    match (a.regions.getD ix defaultRegion).free address frameCnt with
    | none => none
    | some r' => some { a with regions := a.regions.set ix r' }

end FrameAllocator

/-- `MemoryMapEntryKind`. -/
inductive MemoryMapEntryKind where
  | usable
  | kernel
  | reserved
deriving DecidableEq, Repr

/-- `MemoryMapEntry { base, len, kind }`. -/
structure MemoryMapEntry where
  base : Nat
  len : Nat
  kind : MemoryMapEntryKind
deriving DecidableEq, Repr

/-- `FrameAllocator::fill`: for each `Usable` entry build a region with
`MemoryRegion::new`; a panic inside `new` propagates (the `false` flag);
`try_push` failure on a full `ArrayVec` drops the region and breaks,
completing normally.  Returns the region list and whether fill completed. -/
def fillLoop (acc : List MemoryRegion) : List MemoryMapEntry → List MemoryRegion × Bool
  | [] => (acc, true)
  | e :: rest =>
    if e.kind ≠ .usable then fillLoop acc rest
    else
      match MemoryRegion.new e.base e.len with
      | .error _ => (acc, false)
      | .ok r =>
        if acc.length = MAX_MEMORY_REGION_COUNT then (acc, true)
        else fillLoop (acc ++ [r]) rest

/-- `FrameAllocatorToken`: zero-size capability token; through the safe API
it is only minted by the one-time initializer. -/
structure FrameAllocatorToken where
  mk ::
deriving DecidableEq, Repr

/-- The global cell `ALLOCATOR: InitOnce<FrameAllocator>`: the
`SyncUnsafeCell` contents plus the `spin::Once` completion flag. -/
structure KernelState where
  allocator : FrameAllocator
  completed : Bool
deriving DecidableEq, Repr

/-- `allocator::physical::initialize(memory_map, identity_map_token)`,
single-threaded: the best-effort `is_completed` check panics (`none`) when a
prior call completed, leaving the cell untouched; otherwise
`InitOnce::initialize` runs `fill` on the pre-initialized empty allocator and
marks the `Once` completed, and only then is a `FrameAllocatorToken` minted.
If `fill` panics (a `MemoryRegion::new` assertion), the `Once` never
completes and the cell keeps the partially filled data. -/
def initAllocator (st : KernelState) (memoryMap : List MemoryMapEntry) :
    Option FrameAllocatorToken × KernelState :=
  if st.completed then (none, st)
  else
    match fillLoop st.allocator.regions memoryMap with
    | (regions, true) =>
      (some FrameAllocatorToken.mk,
       { allocator := { regions := regions,
                        lastAllocationRegion := st.allocator.lastAllocationRegion },
         completed := true })
    | (regions, false) =>
      (none,
       { allocator := { regions := regions,
                        lastAllocationRegion := st.allocator.lastAllocationRegion },
         completed := false })

/-- Number of set bits among bit positions `0..64` of a word. -/
def setBitCount (w : Nat) : Nat :=
  (List.range 64).foldl (fun s i => s + (if w.testBit i then 1 else 0)) 0

/-! ### Helper lemmas about the chunk-level loops and 64-bit masks -/

theorem allocateSingleLoop_spec (w : Nat) :
    ∀ (l : List Nat) (off w' : Nat),
      FrameBitmapChunk.allocateSingleLoop w l = some (off, w') →
      off ∈ l ∧ w.testBit off = false ∧ w' = w ||| (1 <<< off) := by
  intro l
  induction l with
  | nil =>
    intro off w' h
    exact absurd h (by simp [FrameBitmapChunk.allocateSingleLoop])
  | cons bit rest ih =>
    intro off w' h
    unfold FrameBitmapChunk.allocateSingleLoop at h
    by_cases hb : w.testBit bit = true
    · rw [if_pos hb] at h
      obtain ⟨hmem, hrest⟩ := ih off w' h
      exact ⟨List.mem_cons_of_mem _ hmem, hrest⟩
    · rw [if_neg hb] at h
      have hp := Option.some.inj h
      have h1 : bit = off := congrArg Prod.fst hp
      have h2 : w ||| (1 <<< bit) = w' := congrArg Prod.snd hp
      subst h1
      exact ⟨List.mem_cons_self _ _, Bool.not_eq_true _ ▸ hb, h2.symm⟩

theorem allocateManyLoop_spec (w mask : Nat) :
    ∀ (l : List Nat) (off w' : Nat),
      FrameBitmapChunk.allocateManyLoop w mask l = some (off, w') →
      off ∈ l ∧
      (usizeMax ^^^ w) &&& ((mask <<< off) % 2 ^ 64) = (mask <<< off) % 2 ^ 64 ∧
      w' = w ||| ((mask <<< off) % 2 ^ 64) := by
  intro l
  induction l with
  | nil =>
    intro off w' h
    exact absurd h (by simp [FrameBitmapChunk.allocateManyLoop])
  | cons shift rest ih =>
    intro off w' h
    unfold FrameBitmapChunk.allocateManyLoop at h
    simp only [] at h
    by_cases hc :
        (usizeMax ^^^ w) &&& ((mask <<< shift) % 2 ^ 64) = (mask <<< shift) % 2 ^ 64
    · rw [if_pos hc] at h
      have hp := Option.some.inj h
      have h1 : shift = off := congrArg Prod.fst hp
      have h2 : w ||| ((mask <<< shift) % 2 ^ 64) = w' := congrArg Prod.snd hp
      subst h1
      exact ⟨List.mem_cons_self _ _, hc, h2.symm⟩
    · rw [if_neg hc] at h
      obtain ⟨hmem, hrest⟩ := ih off w' h
      exact ⟨List.mem_cons_of_mem _ hmem, hrest⟩

theorem lor_xor_cancel {w m : Nat} (h : w &&& m = 0) : (w ||| m) ^^^ m = w := by
  apply Nat.eq_of_testBit_eq
  intro i
  have hi : (w &&& m).testBit i = false := by rw [h]; exact Nat.zero_testBit i
  rw [Nat.testBit_and] at hi
  rw [Nat.testBit_xor, Nat.testBit_or]
  cases hm : m.testBit i with
  | true =>
    have hw : w.testBit i = false := by simpa [hm] using hi
    simp [hw, hm]
  | false => simp [hm]

theorem free_bits_of_window {w sm : Nat} (hsm : sm < 2 ^ 64)
    (h : (usizeMax ^^^ w) &&& sm = sm) : w &&& sm = 0 := by
  apply Nat.eq_of_testBit_eq
  intro i
  rw [Nat.testBit_and, Nat.zero_testBit]
  cases hm : sm.testBit i with
  | false => simp [hm]
  | true =>
    have hlt : i < 64 := by
      by_contra hge
      have hx : sm < 2 ^ i :=
        lt_of_lt_of_le hsm (Nat.pow_le_pow_right (by norm_num) (by omega))
      rw [Nat.testBit_lt_two_pow hx] at hm
      exact Bool.noConfusion hm
    have hmax : usizeMax.testBit i = true := by
      unfold usizeMax
      rw [Nat.testBit_two_pow_sub_one]
      simpa using hlt
    have h2 : ((usizeMax ^^^ w) &&& sm).testBit i = sm.testBit i := by rw [h]
    rw [Nat.testBit_and, Nat.testBit_xor, hm, hmax] at h2
    cases hwi : w.testBit i with
    | false => simp [hwi]
    | true => rw [hwi] at h2; simp at h2

theorem land_one_shiftLeft_eq_zero {w off : Nat} (h : w.testBit off = false) :
    w &&& (1 <<< off) = 0 := by
  apply Nat.eq_of_testBit_eq
  intro i
  rw [Nat.testBit_and, Nat.zero_testBit, Nat.shiftLeft_eq, Nat.one_mul,
    Nat.testBit_two_pow]
  by_cases he : off = i
  · subst he; simp [h]
  · simp [he]

/-! ### Claims -/

/-- **C1.** For every region constructed with base `base`, whenever
`MemoryRegion::allocate(frame_count)` succeeds after finding a free run at
bit offset `offset` of chunk number `chunk_index`, the returned physical
address equals `base + chunk_index*(W*FRAME_SIZE) + offset*FRAME_SIZE`.

The code computes `chunk_ix * MEMORY_SIZE + offset * FRAME_SIZE` and never
adds `self.base`.  Evaluated at the failing input: the region built by
`MemoryRegion::new(0x100000, 0x80000)` has its first free bit at chunk 0,
offset 1, yet `allocate(1)` returns address `4096`, not
`0x100000 + 0*(64*4096) + 1*4096 = 1052672`.  The claim (and the spec
formula) notwithstanding, `free` requires the returned address to lie in
`[base, end)`, so the code contradicts its own `free` contract: this is a
code bug. -/
theorem c1_allocate_address_omits_base :
    ((MemoryRegion.new 1048576 524288).toOption.map fun r => (r.allocate 1).1)
        = some (some 4096)
    ∧ (4096 : Nat) ≠ 1048576 + 0 * (FrameBitmapChunk.BITS * FRAME_SIZE) + 1 * FRAME_SIZE := by
  constructor
  · decide
  · decide

/-- Memory map of two disjoint usable 512 KiB ranges, used to build a fresh
allocator for C2. -/
def c2MemoryMap : List MemoryMapEntry :=
  [{ base := 0, len := 524288, kind := .usable },
   { base := 1048576, len := 524288, kind := .usable }]

/-- The addresses returned by two consecutive `allocate(1)` calls (no `free`
in between) on the freshly initialized allocator built from `c2MemoryMap`. -/
def c2TwoAllocations : Option (Option Nat × Option Nat) :=
  match initAllocator { allocator := FrameAllocator.empty, completed := false } c2MemoryMap with
  | (some _, st) =>
    let p1 := st.allocator.allocate 1
    let p2 := p1.2.allocate 1
    some (p1.1, p2.1)
  | (none, _) => none

/-- **C2.** No two successful `allocate(1)` calls return the same physical
address unless a `free` of that address occurred between them.

Evaluated at the failing input: a fresh allocator over two usable regions
(bases 0 and 0x100000); the first `allocate(1)` is served by region 0 and
the second by region 1 (rotating cursor), and both return address `4096`
with no intervening `free`, because `MemoryRegion::allocate` omits the
region base from the returned address.  Code bug (same root cause as C1). -/
theorem c2_duplicate_address_without_free :
    c2TwoAllocations = some (some 4096, some 4096) := by decide

/-- **C3.** For every region successfully constructed by
`MemoryRegion::new`, prefix-reserved bits and suffix-reserved bits are
disjoint, `#prefix = ceil(chunk_array_byte_size / FRAME_SIZE)`, `#suffix` =
the trailing shortfall from a whole multiple of `W*FRAME_SIZE`, and no other
bit is initially set.

Evaluated at the failing input `new(0, 0x80000)` (a region whose size is an
exact multiple of `W*FRAME_SIZE`, so the claimed suffix count is 0 and the
claimed prefix count is 1): the constructed chunks carry 65 set bits, not
`1 + 0` — `end_reserved_frames = 0` makes the code compute
`!((1usize << 64).wrapping_sub(1))`, which panics on shift overflow in debug
builds and reserves all 64 bits of the last chunk in release builds,
contradicting the code's own comment ("Set `end_reserved_frames` most
significant bits to 1").  Code bug. -/
theorem c3_suffix_reservation_wrong_when_chunk_aligned :
    ((MemoryRegion.new 0 524288).toOption.map fun r =>
        r.chunks.foldl (fun s w => s + setBitCount w) 0) = some 65
    ∧ (MemoryRegion.chunkArraySize 524288 + FRAME_SIZE - 1) / FRAME_SIZE = 1
    ∧ 524288 % (FrameBitmapChunk.BITS * FRAME_SIZE) = 0
    ∧ (65 : Nat) ≠ 1 + 0 := by
  refine ⟨by decide, by decide, by decide, by decide⟩

/-- The region state of claim C4: exactly 128 frames (two 64-bit chunks),
zero reserved frames, no prior allocations. -/
def c4Region : MemoryRegion := { base := 0, framesUsed := 0, chunks := [0, 0] }

/-- **C4.** On a 128-frame two-chunk fully-free region, the first
`allocate(64)` should succeed returning the region base.

Evaluated at the failing input: `allocate(64)` passes the `frame_count >
usize::BITS` guard but dispatches to `allocate_many(64)`, whose window loop
ranges over `0..(usize::BITS - count) = 0..0` and is empty, so every chunk
refuses and the call returns no allocation (in debug builds it first trips
`allocate_many`'s own `debug_assert_arg!(count < usize::BITS)`).  The code
contradicts its own `> W` (rather than `>= W`) guard and the spec scenario:
code bug.  The second `allocate(64)` and third `allocate(1)` of the scenario
are moot once the first fails. -/
theorem c4_allocate_full_word_fails :
    c4Region.frameCount = 128 ∧ (c4Region.allocate 64).1 = none := by
  constructor
  · decide
  · decide

/-- **C5.** For every initial chunk bit pattern and every count (at most the
word width, as everywhere in the caller), if a single-threaded allocation on
the chunk succeeds (`allocate_single` for count 1, `allocate_many`
otherwise) returning `offset`, then `free(offset, count)` restores the
chunk word to exactly its prior bit pattern. -/
theorem c5_chunk_round_trip (w count : Nat) (_hw : w < 2 ^ 64) (hc : count ≤ usizeBits)
    (off w' : Nat)
    (h : (if count = 1 then FrameBitmapChunk.allocateSingle w
          else FrameBitmapChunk.allocateMany w count) = some (off, w')) :
    FrameBitmapChunk.free w' off count = some w := by
  by_cases h1 : count = 1
  · subst h1
    rw [if_pos rfl] at h
    unfold FrameBitmapChunk.allocateSingle at h
    by_cases hmax : w = usizeMax
    · rw [if_neg (by simp [hmax])] at h
      exact absurd h (by simp)
    · rw [if_pos hmax] at h
      obtain ⟨hmem, htb, rfl⟩ := allocateSingleLoop_spec w _ off w' h
      have hoff : off < 64 := List.mem_range.mp hmem
      unfold FrameBitmapChunk.free
      rw [if_pos (by decide)]
      have hmask : (((1 <<< (1 % 64)) - 1) <<< off) % 2 ^ 64 = 1 <<< off := by
        have h11 : ((1 : Nat) <<< (1 % 64)) - 1 = 1 := by decide
        rw [h11, Nat.shiftLeft_eq, Nat.one_mul]
        exact Nat.mod_eq_of_lt (Nat.pow_lt_pow_right (by norm_num) hoff)
      rw [hmask, lor_xor_cancel (land_one_shiftLeft_eq_zero htb)]
  · rw [if_neg h1] at h
    unfold FrameBitmapChunk.allocateMany at h
    obtain ⟨hmem, hcond, rfl⟩ := allocateManyLoop_spec w _ _ off w' h
    unfold FrameBitmapChunk.free
    rw [if_pos hc]
    have hsm : (((1 <<< (count % 64)) - 1) <<< off) % 2 ^ 64 < 2 ^ 64 :=
      Nat.mod_lt _ (by norm_num)
    rw [lor_xor_cancel (free_bits_of_window hsm hcond)]

/-- Witness for C5 at the concrete input `w = 0`, `count = 3`: the
allocation returns offset 0 with word 7, and freeing restores word 0. -/
theorem c5_chunk_round_trip_witness : FrameBitmapChunk.free 7 0 3 = some 0 :=
  c5_chunk_round_trip 0 3 (by norm_num) (by decide) 0 7 (by decide)

/-- **C6.** For every allocator state and every region state, and every
`frame_count` strictly greater than the machine word bit width,
`FrameAllocator::allocate` and `MemoryRegion::allocate` return no
allocation: the region allocator rejects `frame_count > usize::BITS` before
touching anything, and the rotating scan then fails in every region. -/
theorem c6_oversized_allocation_rejected (a : FrameAllocator) (r : MemoryRegion)
    (frameCnt : Nat) (h : usizeBits < frameCnt) :
    (r.allocate frameCnt).1 = none ∧ (a.allocate frameCnt).1 = none := by
  have hreg : ∀ r' : MemoryRegion, r'.allocate frameCnt = (none, r') := by
    intro r'
    unfold MemoryRegion.allocate
    rw [if_pos h]
  constructor
  · rw [hreg r]
  · have hloop : ∀ (remaining i : Nat),
        FrameAllocator.allocLoop frameCnt a.lastAllocationRegion a.regions.length
          a.regions i remaining = none := by
      intro remaining
      induction remaining with
      | zero => intro i; rfl
      | succ m ih =>
        intro i
        rw [FrameAllocator.allocLoop, hreg]
        exact ih (i + 1)
    simp [FrameAllocator.allocate, hloop]

/-- Witness for C6 at a concrete allocator, region, and `frame_count = 65`. -/
theorem c6_oversized_allocation_rejected_witness :
    (MemoryRegion.allocate { base := 0, framesUsed := 0, chunks := [0, 0] } 65).1 = none
    ∧ (FrameAllocator.allocate
        { regions := [{ base := 0, framesUsed := 0, chunks := [0, 0] }],
          lastAllocationRegion := 0 } 65).1 = none :=
  c6_oversized_allocation_rejected
    { regions := [{ base := 0, framesUsed := 0, chunks := [0, 0] }],
      lastAllocationRegion := 0 }
    { base := 0, framesUsed := 0, chunks := [0, 0] } 65 (by decide)

/-- **C7.** Every region whose `frames_available` is strictly below
`MIN_FRAMES_REQUIRED = 4` refuses any `allocate(frame_count)` with
`frame_count ≤ usize::BITS` without modifying any bitmap bit (the returned
state is the input state), even when free frames remain in the bitmap. -/
theorem c7_min_headroom_refusal (r : MemoryRegion) (frameCnt : Nat)
    (hfc : frameCnt ≤ usizeBits)
    (hav : r.framesAvailable < MemoryRegion.MIN_FRAMES_REQUIRED) :
    r.allocate frameCnt = (none, r) := by
  unfold MemoryRegion.allocate
  rw [if_neg (Nat.not_lt.mpr hfc), if_pos hav]

/-- Witness for C7: a 128-frame region with 125 frames used (3 available,
all 128 bitmap bits still free) refuses `allocate(1)` and is returned
unchanged. -/
theorem c7_min_headroom_refusal_witness :
    MemoryRegion.allocate { base := 0, framesUsed := 125, chunks := [0, 0] } 1
      = (none, { base := 0, framesUsed := 125, chunks := [0, 0] }) :=
  c7_min_headroom_refusal { base := 0, framesUsed := 125, chunks := [0, 0] } 1
    (by decide) (by decide)

/-- **C9.** Calling the one-time initializer a second time, after a first
call has completed, panics and leaves the already-constructed global
allocator unchanged; and a capability token is only ever produced by an
initialization that completed the one-shot gate. -/
theorem c9_reinit_panics_token_gated (st : KernelState) (mm : List MemoryMapEntry)
    (h : st.completed = true) :
    initAllocator st mm = (none, st)
    ∧ ∀ (st2 : KernelState) (mm2 : List MemoryMapEntry) (t : FrameAllocatorToken),
        (initAllocator st2 mm2).1 = some t → (initAllocator st2 mm2).2.completed = true := by
  constructor
  · unfold initAllocator
    rw [if_pos h]
  · intro st2 mm2 t ht
    unfold initAllocator at ht ⊢
    by_cases h2 : st2.completed = true
    · rw [if_pos h2]
      exact h2
    · rw [if_neg h2] at ht ⊢
      rcases hfill : fillLoop st2.allocator.regions mm2 with ⟨regions, ok⟩
      rw [hfill] at ht
      cases ok with
      | true => rfl
      | false => exact Option.noConfusion ht

/-- Witness for C9: re-initializing a completed state panics and leaves the
state unchanged. -/
theorem c9_reinit_panics_token_gated_witness :
    initAllocator { allocator := FrameAllocator.empty, completed := true } []
      = (none, { allocator := FrameAllocator.empty, completed := true }) :=
  (c9_reinit_panics_token_gated
    { allocator := FrameAllocator.empty, completed := true } [] rfl).1

/-- **C10.** For every frame-aligned `base` and `size` with
`FRAME_SIZE < size < W*FRAME_SIZE` (all documented preconditions of
`MemoryRegion::new` hold), construction computes a chunk-array byte size of
zero and then evaluates `chunks_size - 1` on a `usize`, reaching the
underflow (out-of-bounds last-chunk access): regions smaller than one full
chunk's coverage cannot be constructed. -/
theorem c10_subchunk_region_unconstructible (base size : Nat)
    (hb : base % FRAME_SIZE = 0) (hs : size % FRAME_SIZE = 0)
    (h1 : FRAME_SIZE < size) (h2 : size < FrameBitmapChunk.BITS * FRAME_SIZE) :
    MemoryRegion.chunkArraySize size = 0
    ∧ MemoryRegion.new base size = .error .lastChunkUnderflow := by
  have hcz : MemoryRegion.chunkArraySize size = 0 := by
    unfold MemoryRegion.chunkArraySize
    have hz : size / MemoryRegion.ALIGNMENT = 0 := by
      apply Nat.div_eq_of_lt
      have : FrameBitmapChunk.BITS * FRAME_SIZE = MemoryRegion.ALIGNMENT := by decide
      omega
    rw [hz, Nat.zero_mul]
  refine ⟨hcz, ?_⟩
  have herf :
      (MemoryRegion.nextMultipleOf (base + size) MemoryRegion.ALIGNMENT - (base + size))
          / FRAME_SIZE < FrameBitmapChunk.BITS := by
    simp only [MemoryRegion.nextMultipleOf, MemoryRegion.ALIGNMENT, FRAME_SIZE,
      FrameBitmapChunk.BITS]
    omega
  unfold MemoryRegion.new
  rw [if_neg (by simp [hb])]
  rw [if_neg (by simp [hs])]
  rw [if_neg (by omega)]
  simp only [hcz]
  rw [if_neg (by omega : ¬¬0 < size)]
  rw [if_neg (not_not_intro herf)]
  rw [if_pos trivial]

/-- Witness for C10 at `base = 0`, `size = 2 * FRAME_SIZE`. -/
theorem c10_subchunk_region_unconstructible_witness :
    MemoryRegion.chunkArraySize 8192 = 0
    ∧ MemoryRegion.new 0 8192 = .error .lastChunkUnderflow :=
  c10_subchunk_region_unconstructible 0 8192 (by decide) (by decide) (by decide) (by decide)

/-! ### Helper lemmas about the ownership comparator and the binary search -/

theorem getD_eq_get (l : List MemoryRegion) (i : Nat) (h : i < l.length) :
    l.getD i defaultRegion = l.get ⟨i, h⟩ := by
  simp [List.getD_eq_getElem?_getD, List.getElem?_eq_getElem h]

theorem checkIfOwned_iff (r : MemoryRegion) (addr : Nat) :
    r.checkIfOwned addr = true ↔ (r.base ≤ addr ∧ addr < r.endAddr) := by
  unfold MemoryRegion.checkIfOwned
  exact decide_eq_true_iff

theorem base_lt_endAddr {r : MemoryRegion} (h : r.chunks ≠ []) :
    r.base < r.endAddr := by
  have hpos : 0 < r.chunks.length := List.length_pos.mpr h
  unfold MemoryRegion.endAddr MemoryRegion.lenBytes MemoryRegion.frameCount
    FrameBitmapChunk.BITS FRAME_SIZE
  omega

theorem cmpRegion_eq_iff (r : MemoryRegion) (addr : Nat) :
    FrameAllocator.cmpRegion r addr = .eq ↔ r.checkIfOwned addr = true := by
  unfold FrameAllocator.cmpRegion
  by_cases h : r.checkIfOwned addr = true
  · rw [if_pos h]; simp [h]
  · rw [if_neg h]
    by_cases h2 : r.base < addr
    · rw [if_pos h2]; simp [h]
    · rw [if_neg h2]; simp [h]

theorem cmpRegion_ne_gt_of_base_lt {r : MemoryRegion} {addr : Nat} (h : r.base < addr) :
    FrameAllocator.cmpRegion r addr ≠ .gt := by
  unfold FrameAllocator.cmpRegion
  by_cases ho : r.checkIfOwned addr = true
  · rw [if_pos ho]; simp
  · rw [if_neg ho, if_pos h]; simp

theorem cmpRegion_gt_of_addr_lt_base {r : MemoryRegion} {addr : Nat} (h : addr < r.base) :
    FrameAllocator.cmpRegion r addr = .gt := by
  unfold FrameAllocator.cmpRegion
  have ho : r.checkIfOwned addr = false := by
    apply decide_eq_false
    intro hc
    omega
  rw [if_neg (by simp [ho]), if_neg (by omega)]

/-- Any `Ok(ix)` of the binary search points at a region whose ownership
predicate accepted the address (regardless of any sortedness). -/
theorem binarySearchLoop_some (regions : List MemoryRegion) (addr : Nat) :
    ∀ (fuel left right : Nat), right ≤ regions.length → right - left ≤ fuel →
      ∀ ix, FrameAllocator.binarySearchLoop regions addr left right = some ix →
        ix < regions.length ∧ (regions.getD ix defaultRegion).checkIfOwned addr = true := by
  intro fuel
  induction fuel with
  | zero =>
    intro left right hr hf ix h
    unfold FrameAllocator.binarySearchLoop at h
    rw [dif_neg (by omega)] at h
    exact Option.noConfusion h
  | succ n ih =>
    intro left right hr hf ix h
    unfold FrameAllocator.binarySearchLoop at h
    by_cases hlr : left < right
    · rw [dif_pos hlr] at h
      rcases hcmp :
          FrameAllocator.cmpRegion
            (regions.getD (left + (right - left) / 2) defaultRegion) addr with _ | _ | _
      · rw [hcmp] at h
        exact ih (left + (right - left) / 2 + 1) right hr (by omega) ix h
      · rw [hcmp] at h
        have hix : left + (right - left) / 2 = ix := Option.some.inj h
        subst hix
        exact ⟨by omega, (cmpRegion_eq_iff _ _).mp hcmp⟩
      · rw [hcmp] at h
        exact ih left (left + (right - left) / 2) (by omega) (by omega) ix h
    · rw [dif_neg hlr] at h
      exact Option.noConfusion h

/-- If the comparator is `Equal` at index `k` inside the window, never
`Greater` strictly below `k`, and always `Greater` strictly above `k`, the
binary search succeeds. -/
theorem binarySearchLoop_finds (regions : List MemoryRegion) (addr k : Nat)
    (hEq : FrameAllocator.cmpRegion (regions.getD k defaultRegion) addr = .eq)
    (hLt : ∀ i, i < k → FrameAllocator.cmpRegion (regions.getD i defaultRegion) addr ≠ .gt)
    (hGt : ∀ j, k < j → j < regions.length →
        FrameAllocator.cmpRegion (regions.getD j defaultRegion) addr = .gt) :
    ∀ (fuel left right : Nat), right ≤ regions.length → right - left ≤ fuel →
      left ≤ k → k < right →
      ∃ ix, FrameAllocator.binarySearchLoop regions addr left right = some ix := by
  intro fuel
  induction fuel with
  | zero =>
    intro left right hr hf hlk hkr
    exact absurd (by omega : left < right) (by omega)
  | succ n ih =>
    intro left right hr hf hlk hkr
    have hlr : left < right := by omega
    unfold FrameAllocator.binarySearchLoop
    rw [dif_pos hlr]
    rcases hcmp :
        FrameAllocator.cmpRegion
          (regions.getD (left + (right - left) / 2) defaultRegion) addr with _ | _ | _
    · have hmidk : left + (right - left) / 2 < k := by
        rcases Nat.lt_trichotomy (left + (right - left) / 2) k with h' | h' | h'
        · exact h'
        · rw [h', hEq] at hcmp
          exact absurd hcmp (by simp)
        · rw [hGt _ h' (by omega)] at hcmp
          exact absurd hcmp (by simp)
      exact ih (left + (right - left) / 2 + 1) right hr (by omega) (by omega) hkr
    · exact ⟨left + (right - left) / 2, rfl⟩
    · have hmidk : k < left + (right - left) / 2 := by
        rcases Nat.lt_trichotomy (left + (right - left) / 2) k with h' | h' | h'
        · exact absurd hcmp (hLt _ h')
        · rw [h', hEq] at hcmp
          exact absurd hcmp (by simp)
        · exact h'
      exact ih left (left + (right - left) / 2) (by omega) (by omega) hlk hmidk

/-- **C8.** For every allocator and every address that no region owns,
`FrameAllocator::free` panics (the `expect` on the failed binary search)
rather than returning; and, given the documented region-list invariant
(regions ordered by base and pairwise disjoint — `end(i) <= base(j)` for
`i < j` — each covering at least one frame), the binary search locates an
owning region whenever one exists. -/
theorem c8_unowned_free_panics_search_finds_owner (a : FrameAllocator) (addr frameCnt : Nat) :
    ((∀ r ∈ a.regions, r.checkIfOwned addr = false) → a.free addr frameCnt = none)
    ∧ (List.Pairwise (fun r1 r2 => r1.endAddr ≤ r2.base) a.regions →
       (∀ r ∈ a.regions, r.chunks ≠ []) →
       (∃ r ∈ a.regions, r.checkIfOwned addr = true) →
       ∃ ix, FrameAllocator.binarySearchLoop a.regions addr 0 a.regions.length = some ix
         ∧ ix < a.regions.length
         ∧ (a.regions.getD ix defaultRegion).checkIfOwned addr = true) := by
  constructor
  · intro hall
    unfold FrameAllocator.free
    rcases hbs : FrameAllocator.binarySearchLoop a.regions addr 0 a.regions.length
      with _ | ix
    · rfl
    · obtain ⟨hlt, howned⟩ :=
        binarySearchLoop_some a.regions addr a.regions.length 0 a.regions.length
          le_rfl (by omega) ix hbs
      have hmem : a.regions.getD ix defaultRegion ∈ a.regions := by
        rw [getD_eq_get _ _ hlt]
        exact List.get_mem _ _ _
      rw [hall _ hmem] at howned
      exact Bool.noConfusion howned
  · intro hpw hne hex
    obtain ⟨r, hrmem, hrowned⟩ := hex
    obtain ⟨⟨k, hklen⟩, hkr⟩ := List.mem_iff_get.mp hrmem
    have hkowned : (a.regions.getD k defaultRegion).checkIfOwned addr = true := by
      rw [getD_eq_get _ _ hklen, hkr]
      exact hrowned
    have hkprop := (checkIfOwned_iff _ _).mp hkowned
    have hEq : FrameAllocator.cmpRegion (a.regions.getD k defaultRegion) addr = .eq :=
      (cmpRegion_eq_iff _ _).mpr hkowned
    have hLt : ∀ i, i < k →
        FrameAllocator.cmpRegion (a.regions.getD i defaultRegion) addr ≠ .gt := by
      intro i hik
      have hilen : i < a.regions.length := by omega
      apply cmpRegion_ne_gt_of_base_lt
      have hpair : (a.regions.get ⟨i, hilen⟩).endAddr ≤ (a.regions.get ⟨k, hklen⟩).base :=
        List.pairwise_iff_get.mp hpw ⟨i, hilen⟩ ⟨k, hklen⟩ hik
      have hneI : (a.regions.get ⟨i, hilen⟩).chunks ≠ [] :=
        hne _ (List.get_mem _ _ _)
      have hbe := base_lt_endAddr hneI
      have hkbase : (a.regions.get ⟨k, hklen⟩).base ≤ addr := by
        rw [← getD_eq_get _ _ hklen]
        exact hkprop.1
      rw [getD_eq_get _ _ hilen]
      omega
    have hGt : ∀ j, k < j → j < a.regions.length →
        FrameAllocator.cmpRegion (a.regions.getD j defaultRegion) addr = .gt := by
      intro j hkj hjlen
      apply cmpRegion_gt_of_addr_lt_base
      have hpair : (a.regions.get ⟨k, hklen⟩).endAddr ≤ (a.regions.get ⟨j, hjlen⟩).base :=
        List.pairwise_iff_get.mp hpw ⟨k, hklen⟩ ⟨j, hjlen⟩ hkj
      have haddr : addr < (a.regions.get ⟨k, hklen⟩).endAddr := by
        rw [← getD_eq_get _ _ hklen]
        exact hkprop.2
      rw [getD_eq_get _ _ hjlen]
      omega
    obtain ⟨ix, hix⟩ :=
      binarySearchLoop_finds a.regions addr k hEq hLt hGt
        a.regions.length 0 a.regions.length le_rfl (by omega) (by omega) hklen
    obtain ⟨hlt2, howned2⟩ :=
      binarySearchLoop_some a.regions addr a.regions.length 0 a.regions.length
        le_rfl (by omega) ix hix
    exact ⟨ix, hix, hlt2, howned2⟩

/-- The concrete two-region allocator used by the C8 witness. -/
def c8WitnessAllocator : FrameAllocator :=
  { regions := [{ base := 0, framesUsed := 0, chunks := [0] },
                { base := 262144, framesUsed := 0, chunks := [0] }],
    lastAllocationRegion := 0 }

/-- Witness for C8 on a concrete two-region allocator: freeing the unowned
address `999999999` panics, and for address `300000` (owned by the second
region) the binary search returns an owning index. -/
theorem c8_unowned_free_panics_search_finds_owner_witness :
    (FrameAllocator.free c8WitnessAllocator 999999999 1 = none)
    ∧ ∃ ix,
        FrameAllocator.binarySearchLoop c8WitnessAllocator.regions 300000 0
          c8WitnessAllocator.regions.length = some ix
        ∧ ix < c8WitnessAllocator.regions.length
        ∧ (c8WitnessAllocator.regions.getD ix defaultRegion).checkIfOwned 300000 = true :=
  ⟨(c8_unowned_free_panics_search_finds_owner c8WitnessAllocator 999999999 1).1 (by decide),
   (c8_unowned_free_panics_search_finds_owner c8WitnessAllocator 300000 1).2
     (by decide) (by decide) (by decide)⟩
